import Mathlib

/-!
Shallow embedding of the fan-fiction document model and localization pipeline
of `toridoriv/fangirl-toolbox` (TypeScript), for checking the repository's
natural-language specification.

The embedding follows the current revision of the modules:
`src/localization/enums.ts`, `src/localization/schemas.ts`,
`src/localization/actions.ts`, `src/localization/utils.ts`,
`src/fanfictions/models.ts`, and the base `Model` class (schema-validating
constructor).  External collaborators (language detection, the kuromoji
morphological analyzer, the word tokenizer, the transliteration function,
URL parsing) are modelled as explicit function parameters, matching their
contracts in the code.  Fallible operations (schema validation throwing a
ZodError, the rich-text pipeline throwing) are modelled with `Option`:
`none` is the thrown-error outcome.  JavaScript `Date` timestamps are
modelled as `Int` values supplied by the caller.
-/

namespace Fangirl

/-- Language codes from `src/localization/enums.ts` (`LanguageCode`):
the ten two-letter codes registered in the application, including the
undetermined sentinel `xx`. -/
inductive LanguageCode where
  | en | es | fr | it | ja | ko | pt | ru | xx | zh
deriving DecidableEq, Repr, Fintype

/-- The string value of each `LanguageCode` enum member. -/
def LanguageCode.str : LanguageCode → String
  | .en => "en"
  | .es => "es"
  | .fr => "fr"
  | .it => "it"
  | .ja => "ja"
  | .ko => "ko"
  | .pt => "pt"
  | .ru => "ru"
  | .xx => "xx"
  | .zh => "zh"

/-- Language names from `src/localization/enums.ts` (`LanguageName`). -/
inductive LanguageName where
  | english | spanish | french | italian | japanese | korean | portuguese
  | russian | undetermined | chinese
deriving DecidableEq, Repr, Fintype

/-- A language value `{ code, name }` as produced by `LanguageSchema`
(`src/localization/schemas.ts`).  The object branch of the schema accepts
any pair of valid enum members, so the two fields are independent here. -/
structure Language where
  code : LanguageCode
  name : LanguageName
deriving DecidableEq, Repr

/-- Registry `LANGUAGE_BY_CODE` from `src/localization/enums.ts`. -/
def LANGUAGE_BY_CODE : LanguageCode → Language
  | .en => ⟨.en, .english⟩
  | .es => ⟨.es, .spanish⟩
  | .fr => ⟨.fr, .french⟩
  | .it => ⟨.it, .italian⟩
  | .ja => ⟨.ja, .japanese⟩
  | .ko => ⟨.ko, .korean⟩
  | .pt => ⟨.pt, .portuguese⟩
  | .ru => ⟨.ru, .russian⟩
  | .xx => ⟨.xx, .undetermined⟩
  | .zh => ⟨.zh, .chinese⟩

/-- Registry `LANGUAGE_BY_NAME` from `src/localization/enums.ts`. -/
def LANGUAGE_BY_NAME : LanguageName → Language
  | .english => ⟨.en, .english⟩
  | .spanish => ⟨.es, .spanish⟩
  | .french => ⟨.fr, .french⟩
  | .italian => ⟨.it, .italian⟩
  | .japanese => ⟨.ja, .japanese⟩
  | .korean => ⟨.ko, .korean⟩
  | .portuguese => ⟨.pt, .portuguese⟩
  | .russian => ⟨.ru, .russian⟩
  | .undetermined => ⟨.xx, .undetermined⟩
  | .chinese => ⟨.zh, .chinese⟩

/-- Whitespace predicate used to model the JavaScript `String.prototype.trim`
that zod's `.trim()` check applies (`src/localization/actions.ts`, schema
field `raw`): the common JS whitespace characters. -/
def isJsWhitespace (c : Char) : Bool :=
  c == ' ' || c == '\t' || c == '\n' || c == '\r' ||
    c == '\x0b' || c == '\x0c' || c == '\u00A0'

/-- Model of JavaScript `trim`: drop leading and trailing whitespace. -/
def jsTrim (s : String) : String :=
  ⟨((s.data.dropWhile isJsWhitespace).reverse.dropWhile isJsWhitespace).reverse⟩

/-- Model of the zod pipeline `z.string().min(1).trim()` used for the `raw`
field of `LocalizedText.schema`.  zod v3 runs chained string checks in
order, so `min(1)` tests the UNTRIMMED input and `.trim()` transforms the
value afterwards; a whitespace-only input of length ≥ 1 therefore passes
validation and is stored as the empty string. -/
def parseRawString (s : String) : Option String :=
  if s.length < 1 then none else some (jsTrim s)

/-- A localized text (`src/localization/actions.ts`, class `LocalizedText`):
raw text, a rich-text rendering (default `""`), and a language. -/
structure LocalizedText where
  raw : String
  rich : String
  language : Language
deriving DecidableEq, Repr

/-- Construction of a `LocalizedText` through the base `Model` constructor,
which runs `LocalizedText.schema.parse` (`src/base` `Model`, claim source
`Model.constructor`): validate `raw` with `min(1).trim()`, trim `rich`
(defaulting to `""` happens at the call sites), keep the language value.
`none` models a thrown `ZodError` (ValidationError). -/
def LocalizedText.construct (raw : String) (language : Language) (rich : String) :
    Option LocalizedText :=
  match parseRawString raw with
  | none => none
  | some r => some { raw := r, rich := jsTrim rich, language := language }

/-- An annotator entry of the rich-text table: an async function from the
raw text to markup.  `none` models a rejected promise (for Russian, the
tokenizer-failure `Error`). -/
def Annotator : Type := String → Option String

/-- The pass-through entry of `RichTextByLanguageCode`
(`src/localization/utils.ts`): discards the text and produces `""`. -/
def passthrough : Annotator := fun _ => some ""

/-- Table `RichTextByLanguageCode` from `src/localization/utils.ts`, with
the Japanese (kuroshiro-backed) and Russian entries as parameters.  The
object literal in the source has keys for `en es fr it ja ko pt ru zh`
only: `xx` has no entry, so the lookup is partial (`none`). -/
def RichTextByLanguageCode (jaFn ruFn : Annotator) : LanguageCode → Option Annotator
  | .en => some passthrough
  | .es => some passthrough
  | .fr => some passthrough
  | .it => some passthrough
  | .ja => some jaFn
  | .ko => some passthrough
  | .pt => some passthrough
  | .ru => some ruFn
  | .zh => some passthrough
  | .xx => none

/-- `LocalizedText.setRichText` (`src/localization/actions.ts` lines
148-154): if `rich` is falsy (empty), look up the annotator for the
language code and store its result; otherwise return the object unchanged.
`none` models the thrown TypeError of a failed table lookup or a rejected
annotator promise. -/
def LocalizedText.setRichText (table : LanguageCode → Option Annotator)
    (t : LocalizedText) : Option LocalizedText :=
  if t.rich = "" then
    match table t.language.code with
    | none => none
    | some f =>
      match f t.raw with
      | none => none
      | some r => some { t with rich := r }
  else some t

/-- `LocalizedText.fromString` (`src/localization/actions.ts`): construct
from a raw string, with the language code coming from the external
detection collaborator (`eld.detect`), falling back to the sentinel `xx`
when detection yields nothing; the schema resolves the code through
`LANGUAGE_BY_CODE`. -/
def LocalizedText.fromString (detect : String → Option LanguageCode) (value : String) :
    Option LocalizedText :=
  LocalizedText.construct value
    (LANGUAGE_BY_CODE (match detect value with | some c => c | none => LanguageCode.xx)) ""

/-- `LocalizedText.updateLanguage` (`src/localization/actions.ts`): replace
the language with `LanguageSchema.parse(code)`, i.e. the canonical registry
entry for the new code.  `rich` is not cleared. -/
def LocalizedText.updateLanguage (t : LocalizedText) (code : LanguageCode) :
    LocalizedText :=
  { t with language := LANGUAGE_BY_CODE code }

/-- C6: for every language code in the registry, resolving the code and
then resolving the resulting Language's name yields the same canonical
Language value (round-trip code to name through `LANGUAGE_BY_CODE` and
`LANGUAGE_BY_NAME`). -/
theorem language_roundtrip_code_name :
    ∀ c : LanguageCode, LANGUAGE_BY_NAME (LANGUAGE_BY_CODE c).name = LANGUAGE_BY_CODE c := by
  decide


/-- Helper: a string fails the zod `min(1)` length check exactly when it is
empty. -/
theorem length_lt_one_iff (s : String) : s.length < 1 ↔ s = "" := by
  constructor
  · intro h
    have h0 : s.length = 0 := Nat.lt_one_iff.mp h
    cases s with
    | mk data =>
      cases data with
      | nil => rfl
      | cons c cs => simp [String.length] at h0
  · intro h
    subst h
    decide

/-- C1: `setRichText` is idempotent.  If the first call succeeds with
result `t'`, a second call on `t'` succeeds with the same value; and
whenever `rich` was already non-empty the call was a no-op (`t' = t`, the
rich value is not recomputed).  The annotator table is arbitrary, so this
holds for every choice of the external Japanese/Russian collaborators. -/
theorem setRichText_idempotent (table : LanguageCode → Option Annotator)
    (t t' : LocalizedText) (h : t.setRichText table = some t') :
    t'.setRichText table = some t' ∧ (t.rich ≠ "" → t' = t) := by
  by_cases hr : t.rich = ""
  · rw [LocalizedText.setRichText, if_pos hr] at h
    split at h
    next hc => cases h
    next f hc =>
      split at h
      next hf => cases h
      next r hf =>
        injection h with h
        refine ⟨?_, fun hcon => absurd hr hcon⟩
        subst h
        rw [LocalizedText.setRichText]
        by_cases hrr : r = ""
        · subst hrr
          have heq : ({ t with rich := "" } : LocalizedText) = t := by
            cases t with
            | mk raw rich language => simp_all
          simp [hc, hf, heq]
        · rw [if_neg ?_]
          simpa using hrr
  · rw [LocalizedText.setRichText, if_neg hr] at h
    injection h with h
    subst h
    exact ⟨by rw [LocalizedText.setRichText, if_neg hr], fun _ => rfl⟩

/-- Concrete annotator table for the C1 witness: the Japanese entry appends
an exclamation mark, everything else is as in the source table. -/
def jaTable : LanguageCode → Option Annotator :=
  RichTextByLanguageCode (fun s => some (s ++ "!")) passthrough

/-- Concrete Japanese localized text with no rich value yet. -/
def jaText : LocalizedText :=
  { raw := "abc", rich := "", language := LANGUAGE_BY_CODE LanguageCode.ja }

/-- The result of annotating `jaText` with `jaTable`. -/
def jaTextRich : LocalizedText :=
  { raw := "abc", rich := "abc!", language := LANGUAGE_BY_CODE LanguageCode.ja }

/-- Witness for C1 at a concrete text and annotator table. -/
theorem setRichText_idempotent_witness :
    jaTextRich.setRichText jaTable = some jaTextRich ∧
      (jaText.rich ≠ "" → jaTextRich = jaText) :=
  setRichText_idempotent jaTable jaText jaTextRich (by decide)

/-- C3 counterexample: a whitespace-only raw string of length 1 is NOT
rejected: zod checks `min(1)` before `.trim()`, so `" "` validates and is
stored as the empty string.  The claim says such input fails with a
ValidationError. -/
theorem construct_whitespace_not_rejected :
    LocalizedText.construct " " (LANGUAGE_BY_CODE LanguageCode.en) "" =
      some { raw := "", rich := "", language := LANGUAGE_BY_CODE LanguageCode.en } := by
  decide

/-- C3 (amended): construction fails with a ValidationError exactly when
the supplied raw string is empty; every non-empty input (whitespace-only
included) succeeds, and the stored `raw` equals the input with surrounding
whitespace trimmed. -/
theorem construct_empty_iff_and_trim (s : String) (lang : Language) (rt : String) :
    (s = "" → LocalizedText.construct s lang rt = none) ∧
    (s ≠ "" → LocalizedText.construct s lang rt =
      some { raw := jsTrim s, rich := jsTrim rt, language := lang }) := by
  constructor
  · intro h
    subst h
    rfl
  · intro h
    have hnot : ¬ s.length < 1 := fun hlt => h ((length_lt_one_iff s).mp hlt)
    unfold LocalizedText.construct parseRawString
    rw [if_neg hnot]

/-- Witness for C3 (amended): a trailing-space input succeeds trimmed, the
empty input fails. -/
theorem construct_empty_iff_and_trim_witness :
    ("hi " ≠ "" ∧ LocalizedText.construct "hi " (LANGUAGE_BY_CODE LanguageCode.en) "" =
      some { raw := jsTrim "hi ", rich := jsTrim "",
             language := LANGUAGE_BY_CODE LanguageCode.en }) ∧
    LocalizedText.construct "" (LANGUAGE_BY_CODE LanguageCode.en) "" = none :=
  ⟨⟨by decide, (construct_empty_iff_and_trim "hi " (LANGUAGE_BY_CODE LanguageCode.en) "").2
      (by decide)⟩,
    (construct_empty_iff_and_trim "" (LANGUAGE_BY_CODE LanguageCode.en) "").1 rfl⟩

/-- C8 counterexample: `th` is not a registered language code: no member of
the `LanguageCode` enum of `src/localization/enums.ts` has the string value
`"th"` (the Thai entry exists only in the superseded `src/lib/localization.ts`
registry), so no `LocalizedText` of this module can carry it. -/
theorem no_thai_language_code : ¬ ∃ c : LanguageCode, c.str = "th" := by
  decide

/-- C8 (amended): the rich-text table has no entry for the undetermined
sentinel code `xx`, so on any `LocalizedText` with code `xx` and an empty
`rich` field, `setRichText` takes the error branch instead of producing an
annotation; and `fromString` assigns exactly this code whenever language
detection yields nothing, so the error branch is reachable from the public
interface.  (The `th` part of the claim is dropped: `th` is not a member of
the `LanguageCode` registry used by this pipeline.) -/
theorem setRichText_unannotated_xx (jaFn ruFn : Annotator) (t : LocalizedText)
    (hc : t.language.code = LanguageCode.xx) (hr : t.rich = "") :
    RichTextByLanguageCode jaFn ruFn LanguageCode.xx = none ∧
    t.setRichText (RichTextByLanguageCode jaFn ruFn) = none ∧
    (∀ detect value t₀, LocalizedText.fromString detect value = some t₀ →
      detect value = none → t₀.language.code = LanguageCode.xx) := by
  refine ⟨rfl, ?_, ?_⟩
  · rw [LocalizedText.setRichText, if_pos hr, hc]
    rfl
  · intro detect value t₀ hparse hdet
    rw [LocalizedText.fromString, hdet, LocalizedText.construct] at hparse
    cases hps : parseRawString value with
    | none => rw [hps] at hparse; cases hparse
    | some r =>
      rw [hps] at hparse
      injection hparse with h
      rw [← h]
      rfl

/-- Concrete undetermined-language text for the C8 witness. -/
def xxText : LocalizedText :=
  { raw := "hola", rich := "", language := LANGUAGE_BY_CODE LanguageCode.xx }

/-- Witness for C8 (amended) at a concrete text and annotators. -/
theorem setRichText_unannotated_xx_witness :
    RichTextByLanguageCode passthrough passthrough LanguageCode.xx = none ∧
    xxText.setRichText (RichTextByLanguageCode passthrough passthrough) = none ∧
    (∀ detect value t₀, LocalizedText.fromString detect value = some t₀ →
      detect value = none → t₀.language.code = LanguageCode.xx) :=
  setRichText_unannotated_xx passthrough passthrough xxText rfl rfl


/-- A translatable text (`src/localization/actions.ts`, class
`TranslatableText`): an original localized text plus translations kept in
insertion order (duplicates allowed). -/
structure TranslatableText where
  original : LocalizedText
  translations : List LocalizedText
deriving DecidableEq, Repr

/-- `TranslatableText.addTranslation`: push onto `translations` (no dedup,
no sort); parsing an input object produces a value with the same fields, so
both source branches append the given translation value. -/
def TranslatableText.addTranslation (tt : TranslatableText)
    (translation : LocalizedText) : TranslatableText :=
  { tt with translations := tt.translations ++ [translation] }

/-- `TranslatableText.getTranslationByCode`
(`src/localization/actions.ts` lines 228-234): `Array.prototype.find` over
the translations comparing language codes; `result || null` maps the
JavaScript miss (`undefined`) to the null sentinel, modelled as `none`. -/
def TranslatableText.getTranslationByCode (tt : TranslatableText)
    (code : LanguageCode) : Option LocalizedText :=
  tt.translations.find? (fun translation => translation.language.code == code)

/-- `TranslatableText.getTranslationByName`
(`src/localization/actions.ts` lines 256-262). -/
def TranslatableText.getTranslationByName (tt : TranslatableText)
    (name : LanguageName) : Option LocalizedText :=
  tt.translations.find? (fun translation => translation.language.name == name)

/-- Helper: first-match characterization of a linear `find?` scan: a hit is
the first matching element, a miss means no element matches. -/
theorem find?_first_spec {α : Type} (p : α → Bool) (l : List α) :
    (∀ a, l.find? p = some a →
      ∃ l₁ l₂, l = l₁ ++ a :: l₂ ∧ p a = true ∧ ∀ x ∈ l₁, p x = false) ∧
    (l.find? p = none ↔ ∀ x ∈ l, p x = false) := by
  induction l with
  | nil =>
    refine ⟨fun a h => ?_, by simp⟩
    cases h
  | cons b l ih =>
    constructor
    · intro a h
      cases hb : p b with
      | true =>
        rw [List.find?_cons_of_pos _ hb] at h
        injection h with h
        subst h
        exact ⟨[], l, rfl, hb, by simp⟩
      | false =>
        rw [List.find?_cons_of_neg _ (by simp [hb])] at h
        obtain ⟨l₁, l₂, hsplit, hpa, hall⟩ := ih.1 a h
        refine ⟨b :: l₁, l₂, by rw [hsplit]; rfl, hpa, ?_⟩
        intro x hx
        rcases List.mem_cons.mp hx with hxb | hxl
        · subst hxb; exact hb
        · exact hall x hxl
    · cases hb : p b with
      | true =>
        rw [List.find?_cons_of_pos _ hb]
        constructor
        · intro h; cases h
        · intro h
          exact absurd hb (by simpa using h b (List.mem_cons_self b l))
      | false =>
        rw [List.find?_cons_of_neg _ (by simp [hb])]
        rw [ih.2]
        constructor
        · intro h x hx
          rcases List.mem_cons.mp hx with hxb | hxl
          · subst hxb; exact hb
          · exact h x hxl
        · intro h x hx
          exact h x (List.mem_cons_of_mem b hx)

/-- C7: `getTranslationByCode` and `getTranslationByName` return the first
translation in insertion order whose language code (resp. name) matches,
and return the null sentinel rather than raising when nothing matches. -/
theorem getTranslation_first_match (tt : TranslatableText) (code : LanguageCode)
    (name : LanguageName) :
    (∀ r, tt.getTranslationByCode code = some r →
      ∃ l₁ l₂, tt.translations = l₁ ++ r :: l₂ ∧ r.language.code = code ∧
        ∀ x ∈ l₁, x.language.code ≠ code) ∧
    (tt.getTranslationByCode code = none ↔
      ∀ x ∈ tt.translations, x.language.code ≠ code) ∧
    (∀ r, tt.getTranslationByName name = some r →
      ∃ l₁ l₂, tt.translations = l₁ ++ r :: l₂ ∧ r.language.name = name ∧
        ∀ x ∈ l₁, x.language.name ≠ name) ∧
    (tt.getTranslationByName name = none ↔
      ∀ x ∈ tt.translations, x.language.name ≠ name) := by
  refine ⟨?_, ?_, ?_, ?_⟩
  · intro r h
    unfold TranslatableText.getTranslationByCode at h
    obtain ⟨l₁, l₂, hsplit, hp, hall⟩ := (find?_first_spec _ _).1 r h
    exact ⟨l₁, l₂, hsplit, by simpa using hp, fun x hx => by simpa using hall x hx⟩
  · unfold TranslatableText.getTranslationByCode
    rw [(find?_first_spec _ _).2]
    simp
  · intro r h
    unfold TranslatableText.getTranslationByName at h
    obtain ⟨l₁, l₂, hsplit, hp, hall⟩ := (find?_first_spec _ _).1 r h
    exact ⟨l₁, l₂, hsplit, by simpa using hp, fun x hx => by simpa using hall x hx⟩
  · unfold TranslatableText.getTranslationByName
    rw [(find?_first_spec _ _).2]
    simp

/-- Concrete Spanish translation for the C7 witness. -/
def esText : LocalizedText :=
  { raw := "Hola mundo", rich := "", language := LANGUAGE_BY_CODE LanguageCode.es }

/-- Concrete English original for the C7 witness. -/
def enText : LocalizedText :=
  { raw := "Hello world", rich := "", language := LANGUAGE_BY_CODE LanguageCode.en }

/-- Concrete translatable text for the C7 witness. -/
def sampleTT : TranslatableText :=
  { original := enText, translations := [esText] }

/-- Witness for C7: a concrete hit by code and a concrete miss by name. -/
theorem getTranslation_first_match_witness :
    (∃ l₁ l₂, sampleTT.translations = l₁ ++ esText :: l₂ ∧
      esText.language.code = LanguageCode.es ∧
      ∀ x ∈ l₁, x.language.code ≠ LanguageCode.es) ∧
    (∀ x ∈ sampleTT.translations, x.language.name ≠ LanguageName.french) :=
  ⟨(getTranslation_first_match sampleTT LanguageCode.es LanguageName.french).1 esText
      (by decide),
    (getTranslation_first_match sampleTT LanguageCode.es LanguageName.french).2.2.2.mp
      (by decide)⟩


/-- A paragraph (`src/fanfictions/models.ts`, class `Paragraph`): a
`TranslatableText` extended with its position inside a chapter. -/
structure Paragraph extends TranslatableText where
  index : Int
deriving DecidableEq, Repr

/-- A chapter (`src/fanfictions/models.ts`, class `Chapter`). -/
structure Chapter where
  title : Option TranslatableText
  summary : Option TranslatableText
  index : Int
  paragraphs : List Paragraph
deriving DecidableEq, Repr

/-- `Chapter.addParagraph` (`src/fanfictions/models.ts` lines 85-95): write
the current paragraph count into the argument's `index` field, then push
it.  The instance branch pushes the argument itself; the input branch
pushes `Paragraph.parse(paragraph)`, whose validated fields equal the
argument's (the just-written `index` is ≥ 0, so validation succeeds).  At
the level of stored values both branches append the same paragraph value;
the aliasing distinction is modelled with an explicit heap for claim C10. -/
def Chapter.addParagraph (ch : Chapter) (paragraph : Paragraph) : Chapter :=
  { ch with paragraphs :=
      ch.paragraphs ++ [{ paragraph with index := (ch.paragraphs.length : Int) }] }

/-- An author (`AuthorSchema` of the fanfictions module, `src/unnamed/part_001`):
a localized name and an optional profile URL. -/
structure Author where
  name : LocalizedText
  profile_url : Option String
deriving DecidableEq, Repr

/-- A fanfiction (`src/fanfictions/models.ts`, class `Fanfiction`), with
dates modelled as integer timestamps. -/
structure Fanfiction where
  author : Author
  chapters : List Chapter
  created_at : Int
  fandom : String
  id : String
  language : Language
  origin_id : String
  origin_url : String
  published_at : Int
  relationship_characters : List String
  relationship : String
  source : String
  summary : TranslatableText
  title : TranslatableText
  updated_at : Int
deriving DecidableEq, Repr

/-- `Fanfiction.triggerUpdate` (`src/fanfictions/models.ts`): set
`updated_at` to the current time, supplied explicitly. -/
def Fanfiction.triggerUpdate (f : Fanfiction) (now : Int) : Fanfiction :=
  { f with updated_at := now }

/-- `Fanfiction.addChapter` (`src/fanfictions/models.ts` lines 199-209):
write the current chapter count into the argument's `index`, push it (two
branches collapsing to the same stored value, as for `addParagraph`), then
`triggerUpdate`. -/
def Fanfiction.addChapter (now : Int) (f : Fanfiction) (chapter : Chapter) :
    Fanfiction :=
  ({ f with chapters :=
      f.chapters ++ [{ chapter with index := (f.chapters.length : Int) }]
    }).triggerUpdate now

/-- Validation-time transform `addSource` (`src/fanfictions/models.ts`):
default an empty `source` to the hostname of `origin_url`; URL parsing is
the external collaborator `hostname`. -/
def addSource (hostname : String → String) (value : Fanfiction) : Fanfiction :=
  if value.source = "" then { value with source := hostname value.origin_url }
  else value

/-- Validation-time transform `setRelationship` (`src/fanfictions/models.ts`
lines 256-264): when `relationship_characters` is non-empty, overwrite
`relationship` with the characters joined by `/`. -/
def setRelationship (value : Fanfiction) : Fanfiction :=
  if 0 < value.relationship_characters.length then
    { value with relationship := String.intercalate "/" value.relationship_characters }
  else value

/-- Validation-time transform `fixAuthorLanguage` (`src/fanfictions/models.ts`
lines 266-274): when the author name's language code is the sentinel `xx`,
`updateLanguage` re-resolves it to the registry entry for the fanfiction's
language code. -/
def fixAuthorLanguage (value : Fanfiction) : Fanfiction :=
  if value.author.name.language.code = LanguageCode.xx then
    { value with author :=
        { value.author with
            name := value.author.name.updateLanguage value.language.code } }
  else value

/-- The transform chain of `Fanfiction.schema`:
`.transform(addSource).transform(setRelationship).transform(fixAuthorLanguage)`. -/
def Fanfiction.applyTransforms (hostname : String → String) (value : Fanfiction) :
    Fanfiction :=
  fixAuthorLanguage (setRelationship (addSource hostname value))

/-- Helper: `addSource` only touches `source`. -/
theorem addSource_keeps (hostname : String → String) (v : Fanfiction) :
    (addSource hostname v).relationship = v.relationship ∧
    (addSource hostname v).relationship_characters = v.relationship_characters ∧
    (addSource hostname v).author = v.author ∧
    (addSource hostname v).language = v.language := by
  unfold addSource
  split <;> exact ⟨rfl, rfl, rfl, rfl⟩

/-- Helper: `setRelationship` only touches `relationship`. -/
theorem setRelationship_keeps (v : Fanfiction) :
    (setRelationship v).relationship_characters = v.relationship_characters ∧
    (setRelationship v).author = v.author ∧
    (setRelationship v).language = v.language := by
  unfold setRelationship
  split <;> exact ⟨rfl, rfl, rfl⟩

/-- Helper: `fixAuthorLanguage` only touches the author name. -/
theorem fixAuthorLanguage_keeps (v : Fanfiction) :
    (fixAuthorLanguage v).relationship = v.relationship ∧
    (fixAuthorLanguage v).language = v.language := by
  unfold fixAuthorLanguage
  split <;> exact ⟨rfl, rfl⟩

/-- Helper: the value `setRelationship` stores. -/
theorem setRelationship_value (v : Fanfiction) :
    (v.relationship_characters ≠ [] →
      (setRelationship v).relationship =
        String.intercalate "/" v.relationship_characters) ∧
    (v.relationship_characters = [] →
      (setRelationship v).relationship = v.relationship) := by
  unfold setRelationship
  constructor
  · intro h
    rw [if_pos (List.length_pos.mpr h)]
  · intro h
    rw [if_neg (by simp [h])]

/-- C5: after the construction-time transforms, `relationship` equals the
`relationship_characters` joined with `/` whenever that list is non-empty
(overriding any supplied string), and is preserved unchanged when the list
is empty. -/
theorem relationship_derived_from_characters (hostname : String → String)
    (v : Fanfiction) :
    (v.relationship_characters ≠ [] →
      (v.applyTransforms hostname).relationship =
        String.intercalate "/" v.relationship_characters) ∧
    (v.relationship_characters = [] →
      (v.applyTransforms hostname).relationship = v.relationship) := by
  have hchars := (addSource_keeps hostname v).2.1
  constructor
  · intro h
    rw [Fanfiction.applyTransforms, (fixAuthorLanguage_keeps _).1,
      (setRelationship_value _).1 (by rw [hchars]; exact h), hchars]
  · intro h
    rw [Fanfiction.applyTransforms, (fixAuthorLanguage_keeps _).1,
      (setRelationship_value _).2 (by rw [hchars]; exact h),
      (addSource_keeps hostname v).1]

/-- C9 (amended): after construction, an author name that parsed to the
sentinel code `xx` has its language replaced by the canonical registry
entry for the fanfiction's language code — which equals the fanfiction's
own language whenever that language is itself canonical — while any other
author language is kept unchanged; the fanfiction's `language` field is
never modified. -/
theorem fixAuthorLanguage_spec (hostname : String → String) (v : Fanfiction) :
    (v.author.name.language.code = LanguageCode.xx →
      (v.applyTransforms hostname).author.name.language =
        LANGUAGE_BY_CODE v.language.code) ∧
    (v.author.name.language.code ≠ LanguageCode.xx →
      (v.applyTransforms hostname).author.name = v.author.name) ∧
    (v.applyTransforms hostname).language = v.language := by
  have hwa : (setRelationship (addSource hostname v)).author = v.author := by
    rw [(setRelationship_keeps _).2.1, (addSource_keeps hostname v).2.2.1]
  have hwl : (setRelationship (addSource hostname v)).language = v.language := by
    rw [(setRelationship_keeps _).2.2, (addSource_keeps hostname v).2.2.2]
  unfold Fanfiction.applyTransforms fixAuthorLanguage
  refine ⟨?_, ?_, ?_⟩
  · intro hxx
    rw [if_pos (by rw [hwa]; exact hxx)]
    simp [LocalizedText.updateLanguage, hwl]
  · intro hne
    rw [if_neg (by rw [hwa]; exact hne), hwa]
  · split
    · exact hwl
    · exact hwl

/-- Concrete hostname collaborator for witnesses and counterexamples. -/
def host0 : String → String := fun _ => "archiveofourown.org"

/-- Concrete author whose name carries the sentinel language code. -/
def xxAuthor : Author :=
  { name := { raw := "Tori", rich := "", language := LANGUAGE_BY_CODE LanguageCode.xx },
    profile_url := none }

/-- Concrete fanfiction whose `language` is a mismatched code/name pair —
accepted verbatim by the object branch of `LanguageSchema`, which checks
the two enum fields independently — and whose author name parsed to `xx`. -/
def ficMismatch : Fanfiction :=
  { author := xxAuthor
    chapters := []
    created_at := 0
    fandom := "Initial D"
    id := "1"
    language := { code := LanguageCode.en, name := LanguageName.spanish }
    origin_id := "10"
    origin_url := "https://archiveofourown.org/works/10"
    published_at := 0
    relationship_characters := []
    relationship := ""
    source := ""
    summary := sampleTT
    title := sampleTT
    updated_at := 0 }

/-- C9 counterexample: for a schema-valid fanfiction whose `language` is
the mismatched pair `{ code: en, name: Spanish }` and whose author name
parsed to `xx`, construction rewrites the author language to the canonical
`{ code: en, name: English }`, which is NOT the fanfiction's own language
value as the claim states. -/
theorem fixAuthorLanguage_not_own_language :
    ficMismatch.author.name.language.code = LanguageCode.xx ∧
    (ficMismatch.applyTransforms host0).author.name.language ≠
      (ficMismatch.applyTransforms host0).language := by
  decide

/-- Witness for C9 (amended) at the concrete mismatched fanfiction. -/
theorem fixAuthorLanguage_spec_witness :
    (ficMismatch.applyTransforms host0).author.name.language =
      LANGUAGE_BY_CODE ficMismatch.language.code ∧
    (ficMismatch.applyTransforms host0).language = ficMismatch.language :=
  ⟨(fixAuthorLanguage_spec host0 ficMismatch).1 (by decide),
    (fixAuthorLanguage_spec host0 ficMismatch).2.2⟩

/-- Concrete fanfiction with both characters and an explicit relationship. -/
def ficPair : Fanfiction :=
  { ficMismatch with relationship_characters := ["A", "B"], relationship := "X/Y" }

/-- Witness for C5: with characters `["A", "B"]` the join overrides the
explicit string; with no characters the explicit string is preserved. -/
theorem relationship_derived_from_characters_witness :
    (ficPair.relationship_characters ≠ [] ∧
      (ficPair.applyTransforms host0).relationship =
        String.intercalate "/" ficPair.relationship_characters) ∧
    (ficMismatch.relationship_characters = [] ∧
      (ficMismatch.applyTransforms host0).relationship = ficMismatch.relationship) :=
  ⟨⟨by decide, (relationship_derived_from_characters host0 ficPair).1 (by decide)⟩,
    ⟨rfl, (relationship_derived_from_characters host0 ficMismatch).2 rfl⟩⟩

/-- Helper: folding `addParagraph` over a list of paragraphs appends them
with consecutive indexes starting at the current length. -/
theorem addParagraph_fold_index_eq (ps : List Paragraph) (ch : Chapter) :
    ((ps.foldl Chapter.addParagraph ch).paragraphs.map Paragraph.index) =
      ch.paragraphs.map Paragraph.index ++
        (List.range' ch.paragraphs.length ps.length).map (fun n => (n : Int)) := by
  induction ps generalizing ch with
  | nil => simp
  | cons p ps ih =>
    rw [List.foldl_cons, ih]
    simp [Chapter.addParagraph, List.range'_succ]

/-- Helper: folding `addChapter` over a list of chapters appends them with
consecutive indexes starting at the current length. -/
theorem addChapter_fold_index_eq (now : Int) (cs : List Chapter) (f : Fanfiction) :
    ((cs.foldl (Fanfiction.addChapter now) f).chapters.map Chapter.index) =
      f.chapters.map Chapter.index ++
        (List.range' f.chapters.length cs.length).map (fun n => (n : Int)) := by
  induction cs generalizing f with
  | nil => simp
  | cons c cs ih =>
    rw [List.foldl_cons, ih]
    simp [Fanfiction.addChapter, Fanfiction.triggerUpdate, List.range'_succ]

/-- C2: every append through `addParagraph` (resp. `addChapter`) stamps the
appended item with an index equal to the owning sequence's length at call
time, regardless of any index the item carried, so appending N items to an
initially empty sequence yields indexes exactly `0..N-1` in append order. -/
theorem add_operations_assign_fresh_indexes :
    (∀ (ch : Chapter) (p : Paragraph),
      ((ch.addParagraph p).paragraphs.map Paragraph.index) =
        ch.paragraphs.map Paragraph.index ++ [(ch.paragraphs.length : Int)]) ∧
    (∀ (ch : Chapter) (ps : List Paragraph), ch.paragraphs = [] →
      ((ps.foldl Chapter.addParagraph ch).paragraphs.map Paragraph.index) =
        (List.range ps.length).map (fun n => (n : Int))) ∧
    (∀ (now : Int) (f : Fanfiction) (c : Chapter),
      ((Fanfiction.addChapter now f c).chapters.map Chapter.index) =
        f.chapters.map Chapter.index ++ [(f.chapters.length : Int)]) ∧
    (∀ (now : Int) (f : Fanfiction) (cs : List Chapter), f.chapters = [] →
      ((cs.foldl (Fanfiction.addChapter now) f).chapters.map Chapter.index) =
        (List.range cs.length).map (fun n => (n : Int))) := by
  refine ⟨?_, ?_, ?_, ?_⟩
  · intro ch p
    simp [Chapter.addParagraph]
  · intro ch ps h
    rw [addParagraph_fold_index_eq, h, List.range_eq_range']
    simp
  · intro now f c
    simp [Fanfiction.addChapter, Fanfiction.triggerUpdate]
  · intro now f cs h
    rw [addChapter_fold_index_eq, h, List.range_eq_range']
    simp

/-- Concrete paragraphs carrying stale indexes, for the C2 witness. -/
def p0 : Paragraph := { original := enText, translations := [], index := 7 }

/-- Second concrete paragraph with a stale index. -/
def p1 : Paragraph := { original := esText, translations := [], index := 5 }

/-- Concrete empty chapter for the C2 witness. -/
def emptyChapter : Chapter :=
  { title := none, summary := none, index := 0, paragraphs := [] }

/-- Concrete chapter carrying a stale index, for the C2 witness. -/
def staleChapter : Chapter :=
  { title := none, summary := none, index := 9, paragraphs := [p0] }

/-- Witness for C2: two appended paragraphs get indexes `[0, 1]` despite
carrying `7` and `5`, and an appended chapter gets index `0` despite
carrying `9`. -/
theorem add_operations_assign_fresh_indexes_witness :
    (emptyChapter.paragraphs = [] ∧
      (([p0, p1].foldl Chapter.addParagraph emptyChapter).paragraphs.map
        Paragraph.index) =
        (List.range [p0, p1].length).map (fun n => (n : Int))) ∧
    (ficMismatch.chapters = [] ∧
      (([staleChapter].foldl (Fanfiction.addChapter 99) ficMismatch).chapters.map
        Chapter.index) =
        (List.range [staleChapter].length).map (fun n => (n : Int))) :=
  ⟨⟨rfl, add_operations_assign_fresh_indexes.2.1 emptyChapter [p0, p1] rfl⟩,
    ⟨rfl, add_operations_assign_fresh_indexes.2.2.2 99 ficMismatch [staleChapter] rfl⟩⟩


/-- JS `[...new Set(result)]` (`getUniqueWords`): deduplicate keeping the
first occurrence of each word, in order; `seen` accumulates the words
already emitted. -/
def uniqueAux : List String → List String → List String
  | [], _ => []
  | x :: xs, seen =>
    if x ∈ seen then uniqueAux xs seen else x :: uniqueAux xs (x :: seen)

/-- The unique words of a token list in first-occurrence order. -/
def uniqueList (l : List String) : List String := uniqueAux l []

/-- `getUniqueWords` (`src/localization/utils.ts` lines 60-68): run the
external word tokenizer and deduplicate; a falsy tokenizer result throws
(`none`). -/
def getUniqueWords (tokenize : String → Option (List String)) (value : String) :
    Option (List String) :=
  match tokenize value with
  | none => none
  | some result => some (uniqueList result)

/-- One scan of JavaScript `String.prototype.replaceAll` for a non-empty
search string: replace each leftmost non-overlapping occurrence, left to
right.  `fuel` bounds the recursion structurally and is instantiated with
the length of the scanned text, which every step strictly decreases. -/
def replaceAllGo (pat repl : List Char) : Nat → List Char → List Char
  | _, [] => []
  | 0, s => s
  | fuel + 1, c :: rest =>
    if pat.isPrefixOf (c :: rest) then
      repl ++ replaceAllGo pat repl fuel (rest.drop (pat.length - 1))
    else
      c :: replaceAllGo pat repl fuel rest

/-- JavaScript `String.prototype.replaceAll`: for the empty search string
JS inserts the replacement at every gap; for a non-empty search string it
replaces every leftmost non-overlapping occurrence. -/
def replaceAllStr (s search repl : String) : String :=
  match search.data with
  | [] => ⟨repl.data ++ (s.data.map (fun c => c :: repl.data)).flatten⟩
  | _ :: _ => ⟨replaceAllGo search.data repl.data s.data.length s.data⟩

/-- The `RubyTemplate` of `src/localization/utils.ts`: wrap the original
text in ruby markup with the transliteration as a presentation-only
phonetic guide. -/
def rubyRender (original translit : String) : String :=
  "<ruby>" ++ original ++
    "<rp>(</rp><rt role=\"presentation\" aria-hidden=\"true\">" ++ translit ++
    "</rt><rp>)</rp></ruby>"

/-- The pair built by `toRussianRubyTransliteration`: the original word and
its ruby markup. -/
structure RubyWord where
  value : String
  markup : String

/-- `toRussianRubyTransliteration` (`src/localization/utils.ts` lines
70-77), with the external transliteration collaborator as a parameter. -/
def toRussianRubyTransliteration (translit : String → String) (original : String) :
    RubyWord :=
  { value := original, markup := rubyRender original (translit original) }

/-- The Russian entry `russian` of the rich-text table
(`src/localization/utils.ts` lines 44-53): map the unique words to their
ruby markup, then sequentially `replaceAll` each word by its markup in the
accumulated result. -/
def russian (tokenize : String → Option (List String)) (translit : String → String)
    (value : String) : Option String :=
  match getUniqueWords tokenize value with
  | none => none
  | some words =>
    some ((words.map (toRussianRubyTransliteration translit)).foldl
      (fun result word => replaceAllStr result word.value word.markup) value)

/-- Substring test on character lists, by scanning every suffix. -/
def containsSub (needle : List Char) : List Char → Bool
  | [] => needle.isEmpty
  | c :: rest => needle.isPrefixOf (c :: rest) || containsSub needle rest

/-- Substring test on strings. -/
def strContains (s sub : String) : Bool := containsSub sub.data s.data

/-- Helper: deduplication emits nothing that is in `seen`. -/
theorem uniqueAux_not_mem_seen (l : List String) :
    ∀ seen x, x ∈ uniqueAux l seen → x ∉ seen := by
  induction l with
  | nil =>
    intro seen x hx
    simp [uniqueAux] at hx
  | cons y ys ih =>
    intro seen x hx
    simp only [uniqueAux] at hx
    by_cases hy : y ∈ seen
    · rw [if_pos hy] at hx
      exact ih seen x hx
    · rw [if_neg hy] at hx
      rcases List.mem_cons.mp hx with rfl | hx'
      · exact hy
      · intro hxseen
        exact ih (y :: seen) x hx' (List.mem_cons_of_mem y hxseen)

/-- Helper: deduplication produces no duplicates. -/
theorem uniqueAux_nodup (l : List String) : ∀ seen, (uniqueAux l seen).Nodup := by
  induction l with
  | nil =>
    intro seen
    simp [uniqueAux]
  | cons y ys ih =>
    intro seen
    simp only [uniqueAux]
    by_cases hy : y ∈ seen
    · rw [if_pos hy]
      exact ih seen
    · rw [if_neg hy]
      refine List.nodup_cons.mpr ⟨?_, ih (y :: seen)⟩
      intro hmem
      exact uniqueAux_not_mem_seen ys (y :: seen) y hmem (List.mem_cons_self y seen)

/-- Helper: deduplication keeps a subsequence of the input (first
occurrences, in input order). -/
theorem uniqueAux_sublist (l : List String) :
    ∀ seen, List.Sublist (uniqueAux l seen) l := by
  induction l with
  | nil =>
    intro seen
    simp [uniqueAux]
  | cons y ys ih =>
    intro seen
    simp only [uniqueAux]
    by_cases hy : y ∈ seen
    · rw [if_pos hy]
      exact List.Sublist.cons y (ih seen)
    · rw [if_neg hy]
      exact List.Sublist.cons₂ y (ih (y :: seen))

/-- C4 (amended): when the tokenizer succeeds, the Russian annotator maps
the tokens to their unique words in first-occurrence order (no duplicates,
a subsequence of the tokens), transliterates each, and performs a PLAIN
sequential global find/replace of each word by its ruby markup over the
accumulated result.  The replacement is not protected against overlap: a
later word occurring inside an already-annotated span is rewritten there
too (see the counterexample). -/
theorem russian_sequential_replace (tokenize : String → Option (List String))
    (translit : String → String) (value : String) (ws : List String)
    (h : tokenize value = some ws) :
    russian tokenize translit value =
      some ((uniqueList ws).foldl
        (fun result w => replaceAllStr result w (rubyRender w (translit w))) value) ∧
    (uniqueList ws).Nodup ∧ List.Sublist (uniqueList ws) ws := by
  refine ⟨?_, uniqueAux_nodup ws [], uniqueAux_sublist ws []⟩
  have hrun : russian tokenize translit value =
      some (((uniqueList ws).map (toRussianRubyTransliteration translit)).foldl
        (fun result word => replaceAllStr result word.value word.markup) value) := by
    unfold russian getUniqueWords
    rw [h]
  rw [hrun, List.foldl_map]
  rfl

/-- Concrete tokenizer collaborator for C4: on the sample text it returns
the two words a word tokenizer produces for it. -/
def tok0 : String → Option (List String) :=
  fun v => if v = "aa a" then some ["aa", "a"] else none

/-- Concrete transliteration collaborator for C4: identity on Latin text. -/
def tr0 : String → String := fun w => w

/-- The ruby markup of the first unique word of the C4 sample. -/
def ruby1 : String := rubyRender "aa" "aa"

set_option maxRecDepth 40000 in
/-- C4 counterexample: on input `"aa a"` with unique words `["aa", "a"]`,
the first replacement produces a result containing the annotated span for
`"aa"`, but the second word `"a"` is a substring of that span, and the
final global replacement rewrites inside it: the finished output no longer
contains the `"aa"` annotation intact, so an earlier-produced span IS
re-annotated, contradicting the claim. -/
theorem russian_overlap_reannotation :
    (russian tok0 tr0 "aa a").isSome = true ∧
    strContains (replaceAllStr "aa a" "aa" ruby1) ruby1 = true ∧
    strContains ((russian tok0 tr0 "aa a").getD "") ruby1 = false := by
  refine ⟨rfl, rfl, ?_⟩
  decide

/-- Witness for C4 (amended) at the concrete collaborators. -/
theorem russian_sequential_replace_witness :
    russian tok0 tr0 "aa a" =
      some ((uniqueList ["aa", "a"]).foldl
        (fun result w => replaceAllStr result w (rubyRender w (tr0 w))) "aa a") ∧
    (uniqueList ["aa", "a"]).Nodup ∧
    List.Sublist (uniqueList ["aa", "a"]) ["aa", "a"] :=
  russian_sequential_replace tok0 tr0 "aa a" ["aa", "a"] (by decide)


/-- Heap object backing a `Paragraph`-typed argument of `addParagraph`:
`isInstance` models the JavaScript `instanceof Paragraph` test (false for a
plain input object), the remaining fields are the paragraph data. -/
structure PObj where
  isInstance : Bool
  index : Int
  original : LocalizedText
  translations : List LocalizedText
deriving DecidableEq, Repr

/-- In-place field write `paragraph.index = i`: replace the heap object at
reference `r` (references are positions in the store list). -/
def writeIndexP (st : List PObj) (r : Nat) (i : Int) : List PObj :=
  match st[r]? with
  | none => st
  | some o => st.set r { o with index := i }

/-- `Paragraph.parse(paragraph)` applied to a plain input object: zod
validates the already-written `index` with `int().min(0)` and produces a
FRESH instance carrying the same (already validated) field values. -/
def parsePObj (o : PObj) : Option PObj :=
  if 0 ≤ o.index then some { o with isInstance := true } else none

/-- A chapter as the owner of paragraph references into the heap. -/
structure ChapterRefs where
  paragraphRefs : List Nat
deriving DecidableEq, Repr

/-- `Chapter.addParagraph` (`src/fanfictions/models.ts` lines 85-95) with
the heap explicit: first `paragraph.index = this.paragraphs.length`
mutates the ARGUMENT object in place; then the instance branch pushes that
same reference, while the input branch allocates a fresh parsed copy at
the end of the store and pushes the new reference. -/
def addParagraphRef (st : List PObj) (ch : ChapterRefs) (r : Nat) :
    Option (List PObj × ChapterRefs) :=
  let st1 := writeIndexP st r (ch.paragraphRefs.length : Int)
  match st1[r]? with
  | none => none
  | some o =>
    if o.isInstance then
      some (st1, { paragraphRefs := ch.paragraphRefs ++ [r] })
    else
      match parsePObj o with
      | none => none
      | some copy =>
        some (st1 ++ [copy], { paragraphRefs := ch.paragraphRefs ++ [st1.length] })

/-- Heap object backing a `Chapter`-typed argument of `addChapter`. -/
structure CObj where
  isInstance : Bool
  index : Int
  title : Option TranslatableText
  summary : Option TranslatableText
  paragraphs : List Paragraph
deriving DecidableEq, Repr

/-- In-place field write `chapter.index = i` on the chapter heap. -/
def writeIndexC (st : List CObj) (r : Nat) (i : Int) : List CObj :=
  match st[r]? with
  | none => st
  | some o => st.set r { o with index := i }

/-- `Chapter.parse(chapter)` applied to a plain input object: a fresh
instance with the same validated field values. -/
def parseCObj (o : CObj) : Option CObj :=
  if 0 ≤ o.index then some { o with isInstance := true } else none

/-- A fanfiction as the owner of chapter references into the heap. -/
structure FanficRefs where
  chapterRefs : List Nat
  updated_at : Int
deriving DecidableEq, Repr

/-- `Fanfiction.addChapter` (`src/fanfictions/models.ts` lines 199-209)
with the heap explicit, including the `triggerUpdate` timestamp write. -/
def addChapterRef (now : Int) (st : List CObj) (f : FanficRefs) (r : Nat) :
    Option (List CObj × FanficRefs) :=
  let st1 := writeIndexC st r (f.chapterRefs.length : Int)
  match st1[r]? with
  | none => none
  | some o =>
    if o.isInstance then
      some (st1, { chapterRefs := f.chapterRefs ++ [r], updated_at := now })
    else
      match parseCObj o with
      | none => none
      | some copy =>
        some (st1 ++ [copy],
          { chapterRefs := f.chapterRefs ++ [st1.length], updated_at := now })

/-- Helper: full characterization of `addParagraphRef` on a valid
reference: the argument object itself is re-indexed in place in both
branches; an instance is stored by pushing its own reference with no
allocation; a plain input leaves the caller's object mutated but stores a
freshly allocated parsed copy at a new reference. -/
theorem addParagraphRef_spec (st : List PObj) (ch : ChapterRefs) (r : Nat) (o : PObj)
    (h : st[r]? = some o) :
    ∃ st' ch', addParagraphRef st ch r = some (st', ch') ∧
      st'[r]? = some { o with index := (ch.paragraphRefs.length : Int) } ∧
      (o.isInstance = true →
        ch'.paragraphRefs = ch.paragraphRefs ++ [r] ∧ st'.length = st.length) ∧
      (o.isInstance = false →
        ch'.paragraphRefs = ch.paragraphRefs ++ [st.length] ∧ r ≠ st.length ∧
        st'[st.length]? =
          some { o with
                 index := (ch.paragraphRefs.length : Int)
                 isInstance := true }) := by
  have hr : r < st.length := (List.getElem?_eq_some_iff.mp h).1
  obtain ⟨oi, oidx, oorig, otr⟩ := o
  have hst1 : writeIndexP st r (ch.paragraphRefs.length : Int) =
      st.set r ⟨oi, (ch.paragraphRefs.length : Int), oorig, otr⟩ := by
    unfold writeIndexP
    rw [h]
  have hget1 : (st.set r ⟨oi, (ch.paragraphRefs.length : Int), oorig, otr⟩)[r]? =
      some ⟨oi, (ch.paragraphRefs.length : Int), oorig, otr⟩ :=
    List.getElem?_set_self hr
  have hlen : (st.set r ⟨oi, (ch.paragraphRefs.length : Int), oorig, otr⟩).length =
      st.length := List.length_set st r _
  cases oi with
  | false =>
    have hparse : parsePObj ⟨false, (ch.paragraphRefs.length : Int), oorig, otr⟩ =
        some ⟨true, (ch.paragraphRefs.length : Int), oorig, otr⟩ := by
      unfold parsePObj
      rw [if_pos (Int.natCast_nonneg ch.paragraphRefs.length)]
    refine ⟨st.set r ⟨false, (ch.paragraphRefs.length : Int), oorig, otr⟩ ++
        [⟨true, (ch.paragraphRefs.length : Int), oorig, otr⟩],
      { paragraphRefs := ch.paragraphRefs ++ [st.length] }, ?_, ?_, ?_, ?_⟩
    · simp [addParagraphRef, hst1, hget1, hparse, hlen]
    · rw [List.getElem?_append_left (by rw [hlen]; exact hr)]
      exact hget1
    · intro htrue
      simp at htrue
    · intro _
      refine ⟨rfl, Nat.ne_of_lt hr, ?_⟩
      rw [← hlen]
      exact List.getElem?_concat_length _ _
  | true =>
    refine ⟨st.set r ⟨true, (ch.paragraphRefs.length : Int), oorig, otr⟩,
      { paragraphRefs := ch.paragraphRefs ++ [r] }, ?_, ?_, ?_, ?_⟩
    · simp [addParagraphRef, hst1, hget1]
    · exact hget1
    · intro _
      exact ⟨rfl, List.length_set st r _⟩
    · intro hfalse
      simp at hfalse

/-- Helper: the same characterization for `addChapterRef`, including the
`triggerUpdate` timestamp. -/
theorem addChapterRef_spec (now : Int) (st : List CObj) (f : FanficRefs) (r : Nat)
    (o : CObj) (h : st[r]? = some o) :
    ∃ st' f', addChapterRef now st f r = some (st', f') ∧
      st'[r]? = some { o with index := (f.chapterRefs.length : Int) } ∧
      f'.updated_at = now ∧
      (o.isInstance = true →
        f'.chapterRefs = f.chapterRefs ++ [r] ∧ st'.length = st.length) ∧
      (o.isInstance = false →
        f'.chapterRefs = f.chapterRefs ++ [st.length] ∧ r ≠ st.length ∧
        st'[st.length]? =
          some { o with
                 index := (f.chapterRefs.length : Int)
                 isInstance := true }) := by
  have hr : r < st.length := (List.getElem?_eq_some_iff.mp h).1
  obtain ⟨oi, oidx, otitle, osum, opars⟩ := o
  have hst1 : writeIndexC st r (f.chapterRefs.length : Int) =
      st.set r ⟨oi, (f.chapterRefs.length : Int), otitle, osum, opars⟩ := by
    unfold writeIndexC
    rw [h]
  have hget1 : (st.set r ⟨oi, (f.chapterRefs.length : Int), otitle, osum, opars⟩)[r]? =
      some ⟨oi, (f.chapterRefs.length : Int), otitle, osum, opars⟩ :=
    List.getElem?_set_self hr
  have hlen : (st.set r ⟨oi, (f.chapterRefs.length : Int), otitle, osum, opars⟩).length =
      st.length := List.length_set st r _
  cases oi with
  | false =>
    have hparse : parseCObj ⟨false, (f.chapterRefs.length : Int), otitle, osum, opars⟩ =
        some ⟨true, (f.chapterRefs.length : Int), otitle, osum, opars⟩ := by
      unfold parseCObj
      rw [if_pos (Int.natCast_nonneg f.chapterRefs.length)]
    refine ⟨st.set r ⟨false, (f.chapterRefs.length : Int), otitle, osum, opars⟩ ++
        [⟨true, (f.chapterRefs.length : Int), otitle, osum, opars⟩],
      { chapterRefs := f.chapterRefs ++ [st.length], updated_at := now }, ?_, ?_, rfl, ?_, ?_⟩
    · simp [addChapterRef, hst1, hget1, hparse, hlen]
    · rw [List.getElem?_append_left (by rw [hlen]; exact hr)]
      exact hget1
    · intro htrue
      simp at htrue
    · intro _
      refine ⟨rfl, Nat.ne_of_lt hr, ?_⟩
      rw [← hlen]
      exact List.getElem?_concat_length _ _
  | true =>
    refine ⟨st.set r ⟨true, (f.chapterRefs.length : Int), otitle, osum, opars⟩,
      { chapterRefs := f.chapterRefs ++ [r], updated_at := now }, ?_, ?_, rfl, ?_, ?_⟩
    · simp [addChapterRef, hst1, hget1]
    · exact hget1
    · intro _
      exact ⟨rfl, List.length_set st r _⟩
    · intro hfalse
      simp at hfalse

/-- C10: `addParagraph` and `addChapter` write the computed index into the
argument object itself before insertion.  When the argument is a plain
input object, the stored element is a freshly parsed copy at a new heap
reference while the caller's original object still has its `index` mutated
in place; when the argument is an instance, that very reference is stored
with no copy being allocated. -/
theorem add_operations_mutate_argument :
    (∀ (st : List PObj) (ch : ChapterRefs) (r : Nat) (o : PObj), st[r]? = some o →
      ∃ st' ch', addParagraphRef st ch r = some (st', ch') ∧
        st'[r]? = some { o with index := (ch.paragraphRefs.length : Int) } ∧
        (o.isInstance = true →
          ch'.paragraphRefs = ch.paragraphRefs ++ [r] ∧ st'.length = st.length) ∧
        (o.isInstance = false →
          ch'.paragraphRefs = ch.paragraphRefs ++ [st.length] ∧ r ≠ st.length ∧
          st'[st.length]? =
            some { o with
                   index := (ch.paragraphRefs.length : Int)
                   isInstance := true })) ∧
    (∀ (now : Int) (st : List CObj) (f : FanficRefs) (r : Nat) (o : CObj),
      st[r]? = some o →
      ∃ st' f', addChapterRef now st f r = some (st', f') ∧
        st'[r]? = some { o with index := (f.chapterRefs.length : Int) } ∧
        f'.updated_at = now ∧
        (o.isInstance = true →
          f'.chapterRefs = f.chapterRefs ++ [r] ∧ st'.length = st.length) ∧
        (o.isInstance = false →
          f'.chapterRefs = f.chapterRefs ++ [st.length] ∧ r ≠ st.length ∧
          st'[st.length]? =
            some { o with
                   index := (f.chapterRefs.length : Int)
                   isInstance := true })) :=
  ⟨fun st ch r o h => addParagraphRef_spec st ch r o h,
    fun now st f r o h => addChapterRef_spec now st f r o h⟩

/-- Concrete paragraph heap object that IS a `Paragraph` instance. -/
def pInstObj : PObj :=
  { isInstance := true, index := 7, original := enText, translations := [] }

/-- Concrete paragraph heap object that is a plain input object. -/
def pInputObj : PObj :=
  { isInstance := false, index := 3, original := esText, translations := [] }

/-- Concrete paragraph heap store for the C10 witness. -/
def pStore : List PObj := [pInstObj, pInputObj]

/-- Concrete chapter owner with no paragraphs yet. -/
def chRefs0 : ChapterRefs := { paragraphRefs := [] }

/-- Concrete chapter heap object that is a plain input object. -/
def cInputObj : CObj :=
  { isInstance := false, index := 4, title := none, summary := none, paragraphs := [] }

/-- Concrete chapter heap store for the C10 witness. -/
def cStore : List CObj := [cInputObj]

/-- Concrete fanfiction owner with no chapters yet. -/
def ficRefs0 : FanficRefs := { chapterRefs := [], updated_at := 0 }

/-- Witness for C10: the input-object branch at a concrete two-object
paragraph heap, and the input-object branch at a concrete chapter heap. -/
theorem add_operations_mutate_argument_witness :
    (∃ st' ch', addParagraphRef pStore chRefs0 1 = some (st', ch') ∧
      st'[1]? = some { pInputObj with index := (chRefs0.paragraphRefs.length : Int) } ∧
      (pInputObj.isInstance = true →
        ch'.paragraphRefs = chRefs0.paragraphRefs ++ [1] ∧ st'.length = pStore.length) ∧
      (pInputObj.isInstance = false →
        ch'.paragraphRefs = chRefs0.paragraphRefs ++ [pStore.length] ∧
        1 ≠ pStore.length ∧
        st'[pStore.length]? =
          some { pInputObj with
                 index := (chRefs0.paragraphRefs.length : Int)
                 isInstance := true })) ∧
    (∃ st' f', addChapterRef 42 cStore ficRefs0 0 = some (st', f') ∧
      st'[0]? = some { cInputObj with index := (ficRefs0.chapterRefs.length : Int) } ∧
      f'.updated_at = 42 ∧
      (cInputObj.isInstance = true →
        f'.chapterRefs = ficRefs0.chapterRefs ++ [0] ∧ st'.length = cStore.length) ∧
      (cInputObj.isInstance = false →
        f'.chapterRefs = ficRefs0.chapterRefs ++ [cStore.length] ∧ 0 ≠ cStore.length ∧
        st'[cStore.length]? =
          some { cInputObj with
                 index := (ficRefs0.chapterRefs.length : Int)
                 isInstance := true })) :=
  ⟨add_operations_mutate_argument.1 pStore chRefs0 1 pInputObj (by decide),
    add_operations_mutate_argument.2 42 cStore ficRefs0 0 cInputObj (by decide)⟩

end Fangirl
